import Mathlib

/-!
# Checklist-React — ListStore verification

Shallow embedding of the list-manipulation logic of
`src/checklist/src/ChecklistApp.tsx` (the "ListStore" of the spec), together
with proofs about the operations `addItem`, `addBulkItems`, `removeItem`,
`toggleItem`, `saveEdit`, `clearCompleted`, `reorder`, `exportJSON`,
`importJSON` and the initial load.

Modelling conventions:
* Items are records of `id`, `text`, `completed` (source lines 3-7).
* Fresh ids produced by `cryptoRandomId` (source lines 275-281) are modelled
  by explicit id arguments / an id-generator function `gen : Nat → String`,
  one value per call, since the source draws them from an external RNG.
* JS strings are Lean `String`s; `trim` and the `/\r?\n/` split are modelled
  over the character list `String.data` (the built-in byte-position versions
  do not reduce in the kernel), with the JS whitespace set restricted to the
  ASCII whitespace characters that actually occur in the claims.
* `JSON.parse`/`JSON.stringify` are modelled at the level of structured JSON
  values (`Json` below): a parse either fails or yields a `Json` value, and
  stringify-then-parse is the identity on `Json`.  `importJSON` therefore
  takes an `Option Json` (`none` = parse failure) and `exportJSON` returns
  the `Json` value whose pretty-printing the source downloads.
-/

/-- One checklist entry (source lines 3-7). -/
structure Item where
  id : String
  text : String
  completed : Bool
deriving Repr, DecidableEq

/-- Structured JSON values, the result of `JSON.parse`. -/
inductive Json where
  | null : Json
  | bool : Bool → Json
  | num : Int → Json
  | str : String → Json
  | arr : List Json → Json
  | obj : List (String × Json) → Json

/-- JS whitespace test used by `String.prototype.trim`, restricted to the
ASCII whitespace characters (space, tab, newline, carriage return, vertical
tab, form feed). -/
def jsWhitespace (c : Char) : Bool :=
  c == ' ' || c == '\t' || c == '\n' || c == '\x0d' || c == '\x0b' || c == '\x0c'

/-- Model of `String.prototype.trim`: drop leading and trailing whitespace. -/
def jsTrim (s : String) : String :=
  String.mk (((s.data.dropWhile jsWhitespace).reverse.dropWhile jsWhitespace).reverse)

/-- Model of `split(/\r?\n/)` over a character list: a separator is a newline
optionally preceded by a carriage return (source line 46). -/
def splitLinesAux : List Char → List (List Char)
  | [] => [[]]
  | '\x0d' :: '\n' :: rest => [] :: splitLinesAux rest
  | '\n' :: rest =>
    [] :: splitLinesAux rest
  | c :: rest =>
    match splitLinesAux rest with
    | [] => [[c]]
    | l :: ls => (c :: l) :: ls

/-- `bulkInput.split(/\r?\n/)` as a list of strings. -/
def jsSplitLines (s : String) : List String :=
  (splitLinesAux s.data).map String.mk

/-- The lines used by `addBulkItems` (source lines 45-48): split on line
breaks, trim each line, drop the empty ones. -/
def bulkLines (bulkInput : String) : List String :=
  ((jsSplitLines bulkInput).map jsTrim).filter (fun line => 0 < line.length)

/-- `addItem` (source lines 36-42): no-op when the trimmed input is empty,
otherwise prepend a new item with a fresh id and `completed := false`. -/
def addItem (newId : String) (input : String) (items : List Item) : List Item :=
  let trimmed := jsTrim input
  if trimmed = "" then items
  else { id := newId, text := trimmed, completed := false } :: items

/-- The items built from the non-empty trimmed lines (source lines 51-55):
the `n`-th line receives the `n`-th fresh id from the generator, mirroring
one `cryptoRandomId()` call per created item, in order. -/
def freshItems (gen : Nat → String) : Nat → List String → List Item
  | _, [] => []
  | n, line :: rest =>
    { id := gen n, text := line, completed := false } :: freshItems gen (n + 1) rest

/-- `addBulkItems` (source lines 44-59): no-op when no non-empty trimmed
lines remain, otherwise prepend one item per line, preserving line order. -/
def addBulkItems (gen : Nat → String) (bulkInput : String) (items : List Item) : List Item :=
  let lines := bulkLines bulkInput
  if lines = [] then items
  else freshItems gen 0 lines ++ items

/-- `removeItem` (source lines 61-63): keep the items whose id differs. -/
def removeItem (id : String) (items : List Item) : List Item :=
  items.filter (fun i => i.id ≠ id)

/-- `toggleItem` (source lines 65-67): flip `completed` on the items whose
id matches. -/
def toggleItem (id : String) (items : List Item) : List Item :=
  items.map (fun i => if i.id = id then { i with completed := !i.completed } else i)

/-- `saveEdit` (source lines 74-84) as a function of the editing id and
text.  The source guard `if (!editingId) return` treats both `null` (no
edit in progress, not modelled) and the empty string as falsy, so an empty
editing id is a no-op.  Otherwise an empty trimmed text removes the item
and a non-empty one replaces its text. -/
def saveEdit (editingId : String) (editingText : String) (items : List Item) : List Item :=
  if editingId = "" then items
  else
    let trimmed := jsTrim editingText
    if trimmed = "" then removeItem editingId items
    else items.map (fun i => if i.id = editingId then { i with text := trimmed } else i)

/-- `clearCompleted` (source lines 91-93). -/
def clearCompleted (items : List Item) : List Item :=
  items.filter (fun i => !i.completed)

/-- `reorder` (source lines 95-102): remove the element at `fromIndex` and
re-insert it at `toIndex` (splice semantics; an insertion index past the end
appends).  Out-of-range `fromIndex` is unspecified per spec §4.1/§9 ("must
be guarded by caller" — the UI only passes indices of present items), so the
model guards it as a no-op. -/
def reorder (fromIndex toIndex : Nat) (items : List Item) : List Item :=
  if h : fromIndex < items.length then
    let moved := items.get ⟨fromIndex, h⟩
    let removed := items.eraseIdx fromIndex
    removed.take toIndex ++ moved :: removed.drop toIndex
  else items

/-- JS truthiness of a parsed JSON value (`null`, `false`, `0` and `""` are
falsy; objects and arrays are truthy). -/
def jsTruthy : Json → Bool
  | Json.null => false
  | Json.bool b => b
  | Json.num n => n ≠ 0
  | Json.str s => s ≠ ""
  | Json.arr _ => true
  | Json.obj _ => true

/-- Property access `x.key` on a parsed JSON value: defined on objects,
`undefined` (here `none`) everywhere else.  `JSON.parse` output has no
duplicate keys, so first-match lookup is faithful. -/
def getField : Json → String → Option Json
  | Json.obj fields, key => fieldLookup fields key
  | _, _ => none
where
  fieldLookup : List (String × Json) → String → Option Json
    | [], _ => none
    | (k, v) :: rest, key => if k = key then some v else fieldLookup rest key

/-- The filter of `importJSON` (source line 125):
`x && typeof x.text === "string"`. -/
def keepEntry (x : Json) : Bool :=
  jsTruthy x &&
    match getField x "text" with
    | some (Json.str _) => true
    | _ => false

/-- The `text` of a kept entry (always a string by `keepEntry`). -/
def entryText (x : Json) : String :=
  match getField x "text" with
  | some (Json.str s) => s
  | _ => ""

/-- The string carried by a truthy raw id value.  The truthy id is used
as-is in the source (`id: x.id || cryptoRandomId()`, line 126); a truthy id
that is not already a string is represented by its string form — the claims
under verification only exercise string ids. -/
def jsIdString : Json → String
  | Json.str s => s
  | Json.num n => toString n
  | Json.bool b => cond b "true" "false"
  | _ => ""

/-- The normalized id of the `n`-th kept entry (source line 126): the raw
`id` field when truthy, else the `n`-th fresh id from the generator. -/
def entryId (gen : Nat → String) (n : Nat) (x : Json) : String :=
  match getField x "id" with
  | some v => if jsTruthy v then jsIdString v else gen n
  | none => gen n

/-- The normalized `completed` flag (source line 126): `!!x.completed`. -/
def entryCompleted (x : Json) : Bool :=
  match getField x "completed" with
  | some v => jsTruthy v
  | none => false

/-- The map of `importJSON` (source line 126) over the kept entries, the
`n`-th kept entry using the `n`-th fresh id when its own id is not usable. -/
def normalizeEntries (gen : Nat → String) : Nat → List Json → List Item
  | _, [] => []
  | n, x :: rest =>
    { id := entryId gen n x, text := entryText x, completed := entryCompleted x } ::
      normalizeEntries gen (n + 1) rest

/-- `importJSON` (source lines 117-136) on an already-read payload.
`parsed? = none` models a `JSON.parse` failure (the `catch` branch).  The
result pairs the new item list with whether an error was reported
(`alert`): parse failure or a non-array top level leaves the list untouched
and reports; an array replaces the whole list with the normalized kept
entries. -/
def importJSON (gen : Nat → String) (parsed? : Option Json) (items : List Item) :
    List Item × Bool :=
  match parsed? with
  | none => (items, true)
  | some (Json.arr entries) => (normalizeEntries gen 0 (entries.filter keepEntry), false)
  | some _ => (items, true)

/-- The JSON value `JSON.stringify` serializes for one item. -/
def itemToJson (i : Item) : Json :=
  Json.obj [("id", Json.str i.id), ("text", Json.str i.text), ("completed", Json.bool i.completed)]

/-- `exportJSON` (source lines 104-115): the structured value whose
pretty-printed form is downloaded. -/
def exportJSON (items : List Item) : Json :=
  Json.arr (items.map itemToJson)

/-- The possible states of the persisted value at startup (source lines
12-19): the storage key can be absent (`getItem` returns `null`), hold the
empty string (falsy `raw`), hold text that `JSON.parse` rejects, or hold
text that parses to some JSON value. -/
inductive StoredState where
  | missing : StoredState
  | emptyRaw : StoredState
  | malformed : StoredState
  | parsed : Json → StoredState

/-- The initial state loaded by the `useState` initializer (source lines
12-19): `[]` when the key is missing, the raw value is falsy, or parsing
throws; otherwise the parsed value is used verbatim, with no shape check. -/
def loadInitial : StoredState → Json
  | StoredState.missing => Json.arr []
  | StoredState.emptyRaw => Json.arr []
  | StoredState.malformed => Json.arr []
  | StoredState.parsed j => j

/-- Whether a JSON value is a well-formed serialized Item sequence, per the
spec's data model (§3): an array of records with string `id`, string `text`
and boolean `completed`.  Spec-side predicate, used to compare the loaded
state against the spec's "well-formed sequence of Items". -/
def isItemArray : Json → Bool
  | Json.arr entries => entries.all isItemRecord
  | _ => false
where
  isItemRecord : Json → Bool
    | x =>
      (match getField x "id" with
        | some (Json.str _) => true
        | _ => false) &&
      (match getField x "text" with
        | some (Json.str _) => true
        | _ => false) &&
      (match getField x "completed" with
        | some (Json.bool _) => true
        | _ => false)

/-- List states reachable from the empty list through the mutation
operations other than import (spec §3 "Lifecycle"), with unconstrained id
arguments. -/
inductive Reachable : List Item → Prop where
  | init : Reachable []
  | add (newId input : String) {s : List Item} :
      Reachable s → Reachable (addItem newId input s)
  | bulk (gen : Nat → String) (bulkInput : String) {s : List Item} :
      Reachable s → Reachable (addBulkItems gen bulkInput s)
  | remove (id : String) {s : List Item} :
      Reachable s → Reachable (removeItem id s)
  | toggle (id : String) {s : List Item} :
      Reachable s → Reachable (toggleItem id s)
  | edit (id t : String) {s : List Item} :
      Reachable s → Reachable (saveEdit id t s)
  | clear {s : List Item} :
      Reachable s → Reachable (clearCompleted s)
  | move (a b : Nat) {s : List Item} :
      Reachable s → Reachable (reorder a b s)

/-- Like `Reachable`, but every generated id is fresh: the id passed to
`addItem` is not already in the list, and the generator passed to
`addBulkItems` is injective and avoids the ids in the list.  This models
the spec's "fresh unique id" assumption on `cryptoRandomId` (§4.1, §9). -/
inductive ReachableFresh : List Item → Prop where
  | init : ReachableFresh []
  | add (newId input : String) {s : List Item} :
      ReachableFresh s → newId ∉ s.map Item.id →
      ReachableFresh (addItem newId input s)
  | bulk (gen : Nat → String) (bulkInput : String) {s : List Item} :
      ReachableFresh s → (∀ m n, m ≠ n → gen m ≠ gen n) →
      (∀ n, gen n ∉ s.map Item.id) →
      ReachableFresh (addBulkItems gen bulkInput s)
  | remove (id : String) {s : List Item} :
      ReachableFresh s → ReachableFresh (removeItem id s)
  | toggle (id : String) {s : List Item} :
      ReachableFresh s → ReachableFresh (toggleItem id s)
  | edit (id t : String) {s : List Item} :
      ReachableFresh s → ReachableFresh (saveEdit id t s)
  | clear {s : List Item} :
      ReachableFresh s → ReachableFresh (clearCompleted s)
  | move (a b : Nat) {s : List Item} :
      ReachableFresh s → ReachableFresh (reorder a b s)

/-! ## Helper lemmas -/

/-- `reorder` permutes the list: first insertion into the erased list is a
rotation to the front, then the front element goes back to its slot. -/
theorem reorder_perm (a b : Nat) (items : List Item) :
    List.Perm (reorder a b items) items := by
  unfold reorder
  split
  · rename_i h
    refine List.Perm.trans List.perm_middle ?_
    rw [List.take_append_drop, List.eraseIdx_eq_take_drop_succ]
    refine List.Perm.trans List.perm_middle.symm ?_
    rw [List.get_eq_getElem, List.getElem_cons_drop, List.take_append_drop]
  · exact List.Perm.refl _

/-- Every text of `freshItems` is one of the given lines. -/
theorem freshItems_map_text (gen : Nat → String) :
    ∀ (lines : List String) (n : Nat),
      (freshItems gen n lines).map Item.text = lines := by
  intro lines
  induction lines with
  | nil => intro n; rfl
  | cons l ls ih => intro n; simp [freshItems, ih]

/-- `freshItems` creates one item per line. -/
theorem freshItems_length (gen : Nat → String) :
    ∀ (lines : List String) (n : Nat),
      (freshItems gen n lines).length = lines.length := by
  intro lines
  induction lines with
  | nil => intro n; rfl
  | cons l ls ih => intro n; simp [freshItems, ih]

/-- Every item built by `freshItems` starts not completed. -/
theorem freshItems_completed (gen : Nat → String) :
    ∀ (lines : List String) (n : Nat),
      ∀ i ∈ freshItems gen n lines, i.completed = false := by
  intro lines
  induction lines with
  | nil => intro n i hi; simp [freshItems] at hi
  | cons l ls ih =>
    intro n i hi
    rcases (List.mem_cons).mp hi with rfl | hi
    · rfl
    · exact ih (n + 1) i hi

/-- Every id of `freshItems` comes from the generator, at an index at least
the starting one. -/
theorem freshItems_map_id_mem (gen : Nat → String) :
    ∀ (lines : List String) (n : Nat) (x : String),
      x ∈ (freshItems gen n lines).map Item.id → ∃ k, n ≤ k ∧ x = gen k := by
  intro lines
  induction lines with
  | nil => intro n x hx; simp [freshItems] at hx
  | cons l ls ih =>
    intro n x hx
    simp only [freshItems, List.map_cons, List.mem_cons] at hx
    rcases hx with rfl | hx
    · exact ⟨n, Nat.le_refl n, rfl⟩
    · obtain ⟨k, hk, rfl⟩ := ih (n + 1) x hx
      exact ⟨k, by omega, rfl⟩

/-- With an injective generator the ids of `freshItems` are distinct. -/
theorem freshItems_ids_nodup (gen : Nat → String)
    (hinj : ∀ m n, m ≠ n → gen m ≠ gen n) :
    ∀ (lines : List String) (n : Nat),
      ((freshItems gen n lines).map Item.id).Nodup := by
  intro lines
  induction lines with
  | nil => intro n; simp [freshItems]
  | cons l ls ih =>
    intro n
    simp only [freshItems, List.map_cons, List.nodup_cons]
    refine ⟨fun hmem => ?_, ih (n + 1)⟩
    obtain ⟨k, hk, he⟩ := freshItems_map_id_mem gen ls (n + 1) (gen n) hmem
    exact hinj n k (by omega) he

/-- Lines kept by `bulkLines` are non-empty. -/
theorem bulkLines_ne_empty {bulkInput line : String}
    (h : line ∈ bulkLines bulkInput) : line ≠ "" := by
  simp only [bulkLines, List.mem_filter, decide_eq_true_eq] at h
  intro he
  rw [he] at h
  simp at h

/-- `toggleItem` keeps every id. -/
theorem toggleItem_map_id (id : String) (items : List Item) :
    (toggleItem id items).map Item.id = items.map Item.id := by
  unfold toggleItem
  rw [List.map_map]
  apply List.map_congr_left
  intro i _
  by_cases h : i.id = id <;> simp [h]

/-- `toggleItem` keeps every text. -/
theorem toggleItem_map_text (id : String) (items : List Item) :
    (toggleItem id items).map Item.text = items.map Item.text := by
  unfold toggleItem
  rw [List.map_map]
  apply List.map_congr_left
  intro i _
  by_cases h : i.id = id <;> simp [h]

/-! ## Claim theorems -/

/-- C5: `add(t)` is a no-op when the trimmed text is empty; otherwise it
grows the list by exactly one, prepending an item with the trimmed text,
`completed = false` and the fresh id, ahead of the unchanged prior items. -/
theorem addItem_spec (newId input : String) (items : List Item) :
    (jsTrim input = "" → addItem newId input items = items) ∧
    (jsTrim input ≠ "" →
      (addItem newId input items).length = items.length + 1 ∧
      addItem newId input items =
        { id := newId, text := jsTrim input, completed := false } :: items) := by
  constructor
  · intro h
    simp [addItem, h]
  · intro h
    simp [addItem, h]

/-- Witness for C5: a whitespace-only input is ignored, and `"  milk "` is
prepended trimmed, not completed, with the fresh id. -/
theorem addItem_spec_witness :
    addItem "i1" "   " [{ id := "i0", text := "bread", completed := true }] =
      [{ id := "i0", text := "bread", completed := true }] ∧
    addItem "i1" "  milk " [{ id := "i0", text := "bread", completed := true }] =
      [{ id := "i1", text := "milk", completed := false },
       { id := "i0", text := "bread", completed := true }] :=
  ⟨(addItem_spec "i1" "   " _).1 (by decide),
   ((addItem_spec "i1" "  milk " _).2 (by decide)).2⟩

/-- C6: `addBulk` is a no-op when no non-empty trimmed line remains;
otherwise it grows the list by the number of lines, prepending one
not-completed item per line with fresh ids, in line order, ahead of the
unchanged prior items. -/
theorem addBulkItems_spec (gen : Nat → String) (bulkInput : String) (items : List Item) :
    (bulkLines bulkInput = [] → addBulkItems gen bulkInput items = items) ∧
    (bulkLines bulkInput ≠ [] →
      addBulkItems gen bulkInput items =
        freshItems gen 0 (bulkLines bulkInput) ++ items ∧
      (addBulkItems gen bulkInput items).length =
        (bulkLines bulkInput).length + items.length ∧
      (freshItems gen 0 (bulkLines bulkInput)).map Item.text = bulkLines bulkInput ∧
      (∀ i ∈ freshItems gen 0 (bulkLines bulkInput), i.completed = false) ∧
      (addBulkItems gen bulkInput items).drop (bulkLines bulkInput).length = items) := by
  constructor
  · intro h
    simp [addBulkItems, h]
  · intro h
    have he : addBulkItems gen bulkInput items =
        freshItems gen 0 (bulkLines bulkInput) ++ items := by
      simp [addBulkItems, h]
    refine ⟨he, ?_, freshItems_map_text gen _ 0, freshItems_completed gen _ 0, ?_⟩
    · rw [he, List.length_append, freshItems_length]
    · rw [he, ← freshItems_length gen (bulkLines bulkInput) 0, List.drop_left]

/-- Witness for C6: two lines with surrounding blanks and one blank line
become two fresh prepended items ahead of the existing one. -/
theorem addBulkItems_spec_witness :
    addBulkItems (fun n => "g" ++ toString n) " a \n\nb"
        [{ id := "z", text := "t", completed := true }] =
      [{ id := "g0", text := "a", completed := false },
       { id := "g1", text := "b", completed := false },
       { id := "z", text := "t", completed := true }] := by
  have h := ((addBulkItems_spec (fun n => "g" ++ toString n) " a \n\nb"
      [{ id := "z", text := "t", completed := true }]).2 (by decide)).1
  rw [h]
  decide

/-- C7: toggling the same id twice restores the original list. -/
theorem toggleItem_involution (id : String) (items : List Item) :
    toggleItem id (toggleItem id items) = items := by
  unfold toggleItem
  rw [List.map_map]
  have h : ∀ i ∈ items,
      ((fun i => if i.id = id then { i with completed := !i.completed } else i) ∘
        fun i => if i.id = id then { i with completed := !i.completed } else i) i = i := by
    intro i _
    obtain ⟨iid, itext, icomp⟩ := i
    by_cases h : iid = id <;> simp [h]
  rw [List.map_congr_left h]
  simp

/-- C10: `toggle(id)` preserves the length, every id, every text and the
order; a non-matching item is untouched and a matching one changes only its
`completed` flag. -/
theorem toggleItem_frame (id : String) (items : List Item) :
    (toggleItem id items).length = items.length ∧
    (toggleItem id items).map Item.id = items.map Item.id ∧
    (toggleItem id items).map Item.text = items.map Item.text ∧
    ∀ k, k < items.length → ∀ i, items[k]? = some i →
      ((i.id ≠ id → (toggleItem id items)[k]? = some i) ∧
       (i.id = id → (toggleItem id items)[k]? =
          some { i with completed := !i.completed })) := by
  refine ⟨by simp [toggleItem], toggleItem_map_id id items,
    toggleItem_map_text id items, ?_⟩
  intro k _ i hi
  constructor
  · intro hne
    simp [toggleItem, List.getElem?_map, hi, hne]
  · intro heq
    simp [toggleItem, List.getElem?_map, hi, heq]

/-- Witness for C10: in a two-item list, toggling `"a"` leaves the item at
index 1 (id `"b"`) untouched. -/
theorem toggleItem_frame_witness :
    (toggleItem "a" [{ id := "a", text := "x", completed := false },
                     { id := "b", text := "y", completed := true }])[1]? =
      some { id := "b", text := "y", completed := true } :=
  ((toggleItem_frame "a" _).2.2.2 1 (by decide)
    { id := "b", text := "y", completed := true } rfl).1 (by decide)

/-- C2: a parse failure or a non-array top level leaves the list untouched
and reports an error; an array payload replaces the whole list with the
normalized kept entries, independently of the previous list. -/
theorem importJSON_spec (gen : Nat → String) (items : List Item) :
    (importJSON gen none items = (items, true)) ∧
    (∀ j, (∀ entries, j ≠ Json.arr entries) →
      importJSON gen (some j) items = (items, true)) ∧
    (∀ entries,
      importJSON gen (some (Json.arr entries)) items =
        (normalizeEntries gen 0 (entries.filter keepEntry), false)) := by
  refine ⟨rfl, ?_, fun entries => rfl⟩
  intro j hj
  cases j with
  | arr entries => exact absurd rfl (hj entries)
  | null => rfl
  | bool b => rfl
  | num n => rfl
  | str s => rfl
  | obj fields => rfl

/-- Witness for C2: importing the payload `7` over a one-item list keeps
the list and reports the error. -/
theorem importJSON_spec_witness :
    importJSON (fun n => "g" ++ toString n) (some (Json.num 7))
        [{ id := "a", text := "t", completed := false }] =
      ([{ id := "a", text := "t", completed := false }], true) :=
  (importJSON_spec (fun n => "g" ++ toString n)
      [{ id := "a", text := "t", completed := false }]).2.1
    (Json.num 7) (fun entries h => by cases h)

/-- Every exported item passes the import filter: the serialized object is
truthy and its `text` field is a string. -/
theorem keepEntry_itemToJson (i : Item) : keepEntry (itemToJson i) = true := by
  simp [keepEntry, itemToJson, jsTruthy, getField, getField.fieldLookup]

/-- Normalizing the serialization of items whose ids are non-empty
reproduces the items, whatever the generator offset. -/
theorem normalizeEntries_itemToJson (gen : Nat → String) :
    ∀ (items : List Item) (n : Nat), (∀ i ∈ items, i.id ≠ "") →
      normalizeEntries gen n (items.map itemToJson) = items := by
  intro items
  induction items with
  | nil => intro n _; rfl
  | cons i rest ih =>
    intro n h
    have hid : i.id ≠ "" := h i (List.mem_cons_self i rest)
    simp only [List.map_cons, normalizeEntries]
    congr 1
    · obtain ⟨iid, itext, icomp⟩ := i
      simp only [ne_eq] at hid
      simp [entryId, entryText, entryCompleted, itemToJson, getField,
        getField.fieldLookup, jsTruthy, jsIdString, hid]
    · exact ih (n + 1) (fun j hj => h j (List.mem_cons_of_mem i hj))

/-- C1 (amended): exporting and re-importing a list whose texts are
non-empty trimmed strings and whose ids are non-empty strings succeeds and
reproduces the list exactly — same ids, texts, completed flags and order —
regardless of the list it replaces; a fresh id would be generated only for
an entry whose serialized id is absent or empty (falsy). -/
theorem export_import_roundtrip (gen : Nat → String) (items previous : List Item)
    (hid : ∀ i ∈ items, i.id ≠ "")
    (htext : ∀ i ∈ items, i.text ≠ "" ∧ jsTrim i.text = i.text) :
    importJSON gen (some (exportJSON items)) previous = (items, false) := by
  have hfilter : (items.map itemToJson).filter keepEntry = items.map itemToJson :=
    List.filter_eq_self.mpr (fun x hx => by
      obtain ⟨i, _, rfl⟩ := List.mem_map.mp hx
      exact keepEntry_itemToJson i)
  simp only [importJSON, exportJSON, hfilter]
  rw [normalizeEntries_itemToJson gen items 0 hid]

/-- Witness for C1: a two-item list with non-empty ids and trimmed texts
round-trips unchanged over a non-empty previous list. -/
theorem export_import_roundtrip_witness :
    importJSON (fun n => "g" ++ toString n)
        (some (exportJSON [{ id := "x", text := "a", completed := true },
                           { id := "y", text := "b", completed := false }]))
        [{ id := "old", text := "gone", completed := false }] =
      ([{ id := "x", text := "a", completed := true },
        { id := "y", text := "b", completed := false }], false) :=
  export_import_roundtrip (fun n => "g" ++ toString n)
    [{ id := "x", text := "a", completed := true },
     { id := "y", text := "b", completed := false }]
    [{ id := "old", text := "gone", completed := false }]
    (by decide) (by decide)

/-- Counterexample to C1 as stated: an item whose id is the empty string
serializes with its id field present, yet re-import generates a fresh id,
so the round trip does not preserve the id. -/
theorem export_import_id_regenerated :
    getField (itemToJson { id := "", text := "a", completed := false }) "id" =
      some (Json.str "") ∧
    (importJSON (fun n => "f" ++ toString n)
        (some (exportJSON [{ id := "", text := "a", completed := false }])) []).1 =
      [{ id := "f0", text := "a", completed := false }] ∧
    [({ id := "f0", text := "a", completed := false } : Item)] ≠
      [{ id := "", text := "a", completed := false }] :=
  ⟨rfl, by decide, by decide⟩

/-- C3 (amended): every state reachable through add, addBulk, remove,
toggle, edit, clearCompleted and reorder has only non-empty texts.  (Import
is excluded: it keeps entries whose `text` is the empty string, see the
counterexample.) -/
theorem reachable_texts_nonempty {s : List Item} (h : Reachable s) :
    ∀ i ∈ s, i.text ≠ "" := by
  induction h with
  | init => intro i hi; simp at hi
  | add newId input hr ih =>
    intro i hi
    by_cases he : jsTrim input = ""
    · rw [addItem, if_pos he] at hi
      exact ih i hi
    · rw [addItem, if_neg he] at hi
      rcases List.mem_cons.mp hi with rfl | hi
      · exact he
      · exact ih i hi
  | bulk gen bulkInput hr ih =>
    intro i hi
    by_cases he : bulkLines bulkInput = []
    · rw [addBulkItems, if_pos he] at hi
      exact ih i hi
    · rw [addBulkItems, if_neg he] at hi
      rcases List.mem_append.mp hi with hnew | hold
      · have : i.text ∈ bulkLines bulkInput := by
          rw [← freshItems_map_text gen (bulkLines bulkInput) 0]
          exact List.mem_map_of_mem Item.text hnew
        exact bulkLines_ne_empty this
      · exact ih i hold
  | remove id hr ih =>
    intro i hi
    exact ih i (List.mem_of_mem_filter hi)
  | toggle id hr ih =>
    intro i hi
    obtain ⟨j, hj, rfl⟩ := List.mem_map.mp hi
    have := ih j hj
    by_cases h : j.id = id <;> simp [h, this]
  | edit id t hr ih =>
    intro i hi
    by_cases hid : id = ""
    · rw [saveEdit, if_pos hid] at hi
      exact ih i hi
    · rw [saveEdit, if_neg hid] at hi
      by_cases ht : jsTrim t = ""
      · rw [if_pos ht] at hi
        exact ih i (List.mem_of_mem_filter hi)
      · rw [if_neg ht] at hi
        obtain ⟨j, hj, rfl⟩ := List.mem_map.mp hi
        have := ih j hj
        by_cases h : j.id = id <;> simp [h, this, ht]
  | clear hr ih =>
    intro i hi
    exact ih i (List.mem_of_mem_filter hi)
  | move a b hr ih =>
    intro i hi
    exact ih i ((reorder_perm a b _).mem_iff.mp hi)

/-- Witness for C3: the singleton reached by one add has non-empty text. -/
theorem reachable_texts_nonempty_witness :
    ({ id := "i1", text := "a", completed := false } : Item).text ≠ "" := by
  have hr : Reachable [{ id := "i1", text := "a", completed := false }] := by
    have h := Reachable.add "i1" "a" Reachable.init
    have he : addItem "i1" "a" [] = [{ id := "i1", text := "a", completed := false }] := by
      decide
    rwa [he] at h
  exact reachable_texts_nonempty hr _ (List.mem_singleton.mpr rfl)

/-- Counterexample to C3 as stated: importing `[{"text": ""}]` yields an
item whose text is empty — the import filter only drops entries whose text
is missing or not a string, not empty ones. -/
theorem import_empty_text :
    ((importJSON (fun n => "f" ++ toString n)
        (some (Json.arr [Json.obj [("text", Json.str "")]])) []).1).map Item.text =
      [""] := by
  decide

/-- C9 at the failing persisted value: a stored value that parses but is
not an array (here the number 42) is loaded verbatim — not defaulted to the
empty list and not a well-formed Item sequence — while the missing,
falsy-raw and unparseable cases do default to the empty list. -/
theorem loadInitial_no_shape_check :
    loadInitial (StoredState.parsed (Json.num 42)) = Json.num 42 ∧
    isItemArray (Json.num 42) = false ∧
    loadInitial StoredState.missing = Json.arr [] ∧
    loadInitial StoredState.emptyRaw = Json.arr [] ∧
    loadInitial StoredState.malformed = Json.arr [] :=
  ⟨rfl, rfl, rfl, rfl, rfl⟩

/-- The text-replacing map of `saveEdit` keeps every id. -/
theorem editMap_map_id (id trimmed : String) (items : List Item) :
    (items.map (fun i => if i.id = id then { i with text := trimmed } else i)).map
        Item.id = items.map Item.id := by
  rw [List.map_map]
  apply List.map_congr_left
  intro i _
  by_cases h : i.id = id <;> simp [h]

/-- C4 (amended): every state reachable through add, addBulk, remove,
toggle, edit, clearCompleted and reorder with fresh generated ids has
pairwise distinct ids.  (Import is excluded: it keeps the payload's ids
verbatim and can produce duplicates, see the counterexample.) -/
theorem reachable_ids_nodup {s : List Item} (h : ReachableFresh s) :
    (s.map Item.id).Nodup := by
  induction h with
  | init => simp
  | add newId input hr hfresh ih =>
    by_cases he : jsTrim input = ""
    · rw [addItem, if_pos he]
      exact ih
    · rw [addItem, if_neg he]
      simp only [List.map_cons, List.nodup_cons]
      exact ⟨hfresh, ih⟩
  | bulk gen bulkInput hr hinj hfresh ih =>
    by_cases he : bulkLines bulkInput = []
    · rw [addBulkItems, if_pos he]
      exact ih
    · rw [addBulkItems, if_neg he, List.map_append]
      refine List.Nodup.append (freshItems_ids_nodup gen hinj _ 0) ih ?_
      rw [List.disjoint_left]
      intro x hx
      obtain ⟨k, hk, rfl⟩ := freshItems_map_id_mem gen _ 0 x hx
      exact hfresh k
  | remove id hr ih =>
    rw [removeItem]
    exact ((List.filter_sublist _).map Item.id).nodup ih
  | toggle id hr ih =>
    rw [toggleItem_map_id]
    exact ih
  | edit id t hr ih =>
    by_cases hid : id = ""
    · rw [saveEdit, if_pos hid]
      exact ih
    · rw [saveEdit, if_neg hid]
      by_cases ht : jsTrim t = ""
      · rw [if_pos ht, removeItem]
        exact ((List.filter_sublist _).map Item.id).nodup ih
      · rw [if_neg ht, editMap_map_id]
        exact ih
  | clear hr ih =>
    rw [clearCompleted]
    exact ((List.filter_sublist _).map Item.id).nodup ih
  | move a b hr ih =>
    exact ((reorder_perm a b _).symm.map Item.id).nodup ih

/-- Witness for C4: the singleton reached by one add with a fresh id has
distinct ids. -/
theorem reachable_ids_nodup_witness :
    ((addItem "i1" "a" []).map Item.id).Nodup :=
  reachable_ids_nodup (ReachableFresh.add "i1" "a" ReachableFresh.init (by decide))

/-- Counterexample to C4 as stated: importing two entries that both carry
the id `"a"` yields a list with a duplicated id — import keeps payload ids
verbatim. -/
theorem import_duplicate_ids :
    ((importJSON (fun n => "f" ++ toString n)
        (some (Json.arr
          [Json.obj [("id", Json.str "a"), ("text", Json.str "x")],
           Json.obj [("id", Json.str "a"), ("text", Json.str "y")]])) []).1).map
        Item.id = ["a", "a"] ∧
    ¬ (["a", "a"] : List String).Nodup := by
  constructor <;> decide

/-- Filtering out an element that is present strictly shortens the list. -/
theorem length_filter_lt {α : Type} (p : α → Bool) :
    ∀ (l : List α) (x : α), x ∈ l → p x = false → (l.filter p).length < l.length := by
  intro l
  induction l with
  | nil => intro x hx _; simp at hx
  | cons a rest ih =>
    intro x hx hp
    rcases List.mem_cons.mp hx with rfl | hx
    · rw [List.filter_cons_of_neg (by simp [hp])]
      exact Nat.lt_succ_of_le (List.length_filter_le p rest)
    · have h := ih x hx hp
      rw [List.filter_cons]
      split
      · simpa using Nat.succ_lt_succ h
      · exact Nat.lt_succ_of_le (Nat.le_of_lt h)

/-- C8 (amended): for a non-empty id carried by some item of the list,
`edit(id, newText)` with empty trimmed text removes the matching items
(strictly shortening the list), with non-empty trimmed text replaces
exactly the matching items' text in place, and the same edit applied twice
equals it applied once.  (An empty editing id is treated as "no edit in
progress" by the source's falsy check and is a no-op, see the
counterexample.) -/
theorem saveEdit_spec (editingId editingText : String) (items : List Item)
    (hne : editingId ≠ "") (hmem : ∃ i ∈ items, i.id = editingId) :
    (jsTrim editingText = "" →
      saveEdit editingId editingText items =
        items.filter (fun i => i.id ≠ editingId) ∧
      (saveEdit editingId editingText items).length < items.length ∧
      ∀ i ∈ saveEdit editingId editingText items, i.id ≠ editingId) ∧
    (jsTrim editingText ≠ "" →
      (saveEdit editingId editingText items).map Item.id = items.map Item.id ∧
      ∀ k, k < items.length → ∀ i, items[k]? = some i →
        ((i.id = editingId → (saveEdit editingId editingText items)[k]? =
            some { i with text := jsTrim editingText }) ∧
         (i.id ≠ editingId →
            (saveEdit editingId editingText items)[k]? = some i))) ∧
    saveEdit editingId editingText (saveEdit editingId editingText items) =
      saveEdit editingId editingText items := by
  obtain ⟨w, hw, hwid⟩ := hmem
  refine ⟨?_, ?_, ?_⟩
  · intro ht
    have he : saveEdit editingId editingText items =
        items.filter (fun i => i.id ≠ editingId) := by
      rw [saveEdit, if_neg hne, if_pos ht, removeItem]
    refine ⟨he, ?_, ?_⟩
    · rw [he]
      exact length_filter_lt _ items w hw (by simp [hwid])
    · intro i hi
      rw [he] at hi
      simpa using (List.mem_filter.mp hi).2
  · intro ht
    have he : saveEdit editingId editingText items =
        items.map (fun i =>
          if i.id = editingId then { i with text := jsTrim editingText } else i) := by
      rw [saveEdit, if_neg hne, if_neg ht]
    refine ⟨by rw [he, editMap_map_id], ?_⟩
    intro k _ i hi
    constructor
    · intro hid
      rw [he]
      simp [List.getElem?_map, hi, hid]
    · intro hid
      rw [he]
      simp [List.getElem?_map, hi, hid]
  · by_cases ht : jsTrim editingText = ""
    · have he : saveEdit editingId editingText items =
          items.filter (fun i => i.id ≠ editingId) := by
        rw [saveEdit, if_neg hne, if_pos ht, removeItem]
      rw [he, saveEdit, if_neg hne, if_pos ht, removeItem]
      exact List.filter_eq_self.mpr (fun a ha => (List.mem_filter.mp ha).2)
    · have he : saveEdit editingId editingText items =
          items.map (fun i =>
            if i.id = editingId then { i with text := jsTrim editingText } else i) := by
        rw [saveEdit, if_neg hne, if_neg ht]
      rw [he, saveEdit, if_neg hne, if_neg ht, List.map_map]
      apply List.map_congr_left
      intro i _
      by_cases h : i.id = editingId <;> simp [h]

/-- Witness for C8: editing the only item twice with the same text equals
editing it once. -/
theorem saveEdit_spec_witness :
    saveEdit "e1" " x " (saveEdit "e1" " x "
        [{ id := "e1", text := "old", completed := false }]) =
      saveEdit "e1" " x " [{ id := "e1", text := "old", completed := false }] :=
  (saveEdit_spec "e1" " x " [{ id := "e1", text := "old", completed := false }]
    (by decide) (by decide)).2.2

/-- Counterexample to C8 as stated: the list contains an item whose id is
the empty string and the new text trims to the non-empty `"x"`, yet the
edit is a no-op — the source's falsy guard on the editing id swallows it —
so the item's text is not replaced. -/
theorem saveEdit_empty_editingId_noop :
    saveEdit "" "x" [{ id := "", text := "a", completed := false }] =
      [{ id := "", text := "a", completed := false }] ∧
    jsTrim "x" = "x" ∧ ("x" : String) ≠ "" ∧ ("a" : String) ≠ "x" :=
  ⟨by decide, by decide, by decide, by decide⟩
